import Mathlib

/-!
Verification development for the installment-scheduling logic of the MHLS
clinic-management application (`src/pages/NewAppointment.tsx`).

Calendar dates are embedded as integer day numbers counted from the Unix
epoch (1970-01-01).  The source normalizes every date to a fixed noon
time-of-day precisely so that serialization never moves the calendar day,
so day-level arithmetic is the faithful granularity: `date-fns`'s
`addDays d n` becomes `d + n` and the day of week comes from the epoch
offset (1970-01-01 was a Thursday, JavaScript day number 4).
-/

set_option autoImplicit false

namespace MHLS

/-- JavaScript `Date.getDay` for an epoch day number: Sunday = 0 … Saturday = 6. -/
def getDay (d : Int) : Int :=
  (d + 4) % 7

/-- date-fns `isWeekend`: Saturday or Sunday. -/
def isWeekend (d : Int) : Bool :=
  getDay d == 0 || getDay d == 6

/-- Embeds `adjustForWeekend` from `NewAppointment.tsx`:
`while (isWeekend(date)) date = addDays(date, 1); return date;`. -/
def adjustForWeekend (d : Int) : Int :=
  if isWeekend d then adjustForWeekend (d + 1) else d
termination_by ((8 - getDay d) % 7).toNat
decreasing_by
  simp only [isWeekend, getDay, Bool.or_eq_true, beq_iff_eq] at *
  omega

/-- Days since 1970-01-01 of a civil date (Gregorian calendar, `y ≥ 1`,
`1 ≤ m ≤ 12`).  Standard era-based conversion; used only to name concrete
dates such as 2024-03-01 in the theorems below. -/
def daysFromCivil (y m day : Nat) : Int :=
  let yy := if m ≤ 2 then y - 1 else y
  let era := yy / 400
  let yoe := yy % 400
  let mp := (m + 9) % 12
  let doy := (153 * mp + 2) / 5 + day - 1
  let doe := yoe * 365 + yoe / 4 - yoe / 100 + doy
  (((era * 146097 + doe : Nat)) : Int) - 719468

/-- How far `adjustForWeekend` moves a date: 2 days from a Saturday,
1 day from a Sunday, 0 otherwise. -/
def weekendShift (d : Int) : Int :=
  if getDay d = 6 then 2 else if getDay d = 0 then 1 else 0

/-- Embeds the `for` loop of `calculateInstallmentDates`: starting from
`lastDate`, repeatedly add 30 days, adjust for weekends, and collect the
adjusted date, which becomes the base of the next iteration. -/
def cardDatesAux (lastDate : Int) : Nat → List Int
  | 0 => []
  | k + 1 =>
    let nextDate := adjustForWeekend (lastDate + 30)
    nextDate :: cardDatesAux nextDate k

/-- Embeds `calculateInstallmentDates(procedureDateStr, numberOfInstallments,
paymentMethod)` from `NewAppointment.tsx`.  The procedure date is the epoch
day number of the parsed ISO string; the payment method is the raw string
compared against "pix" and "cash" exactly as in the source, so any other
string takes the credit-card branch.  A non-positive installment count makes
the `for` loop body run zero times, hence `Int.toNat`. -/
def calculateInstallmentDates (procedureDate : Int) (numberOfInstallments : Int)
    (paymentMethod : String) : List Int :=
  if paymentMethod = "pix" ∨ paymentMethod = "cash" then
    [procedureDate]
  else
    cardDatesAux procedureDate numberOfInstallments.toNat

/-- The date of the i-th installment (1-based; `nthDue d 0 = d` is the
procedure date itself): each step is "previous adjusted date + 30 days,
weekend-adjusted". -/
def nthDue (d : Int) : Nat → Int
  | 0 => d
  | i + 1 => adjustForWeekend (nthDue d i + 30)

/-- Embeds `value.replace(/\D/g, '')`: keep only the decimal digits. -/
def stripNonDigits (s : String) : String :=
  String.mk (s.data.filter Char.isDigit)

/-- Value of a string of decimal digits, `0` for the empty string — the
behavior of `parseInt(numericValue || '0', 10)` on the digit-only strings
produced by `stripNonDigits`. -/
def parseNatDigits (s : String) : Nat :=
  s.data.foldl (fun a c => 10 * a + (c.toNat - 48)) 0

/-- JavaScript `parseInt` as applied to the `installments` form field,
modeled on nonnegative digit strings.  Inputs that JavaScript would parse
to `NaN` are modeled as `0`; downstream both make the scheduling loop body
run zero times. -/
def parseIntJS (s : String) : Int :=
  if s.data ≠ [] ∧ s.data.all Char.isDigit then (parseNatDigits s : Int) else 0

/-- Numeric value of `x.toFixed(2)` (and of `toLocaleString` with exactly
two fraction digits): round to the nearest hundredth, halves away from
zero for the nonnegative amounts used here.  JavaScript numbers are
embedded as exact rationals. -/
def toFixed2 (x : ℚ) : ℚ :=
  (round (x * 100) : ℚ) / 100

/-- Numeric value stored for `total_value` by `handleInputChange`:
`(parseInt(value.replace(/\D/g, '') || '0', 10) / 100).toFixed(2)`. -/
def maskedTotalAmount (raw : String) : ℚ :=
  toFixed2 ((parseNatDigits (stripNonDigits raw) : ℚ) / 100)

/-- Per-installment amount, `parseFloat(formData.total_value) /
parseInt(formData.installments)` — a plain division, no rounding and no
remainder redistribution (lines 66–73 and 150 of `NewAppointment.tsx`). -/
def installmentValue (total : ℚ) (installments : Int) : ℚ :=
  total / (installments : ℚ)

/-- One row of the `appointments` bulk insert built by `handleSubmit`.
`total_value` and `installment_value` are the exact rational values of the
JavaScript numbers; `procedure_date` and `next_payment_date` are epoch day
numbers (the source stores their ISO rendering). -/
structure Appointment where
  patient_name : String
  cpf : String
  procedure : String
  total_value : ℚ
  installments : Int
  installment_value : ℚ
  procedure_date : Int
  next_payment_date : Int
  status : String
  user_id : String
  installment_number : Nat
  payment_method : String
deriving DecidableEq

/-- Placeholder row used as the default for positional lookups. -/
def defaultAppointment : Appointment :=
  ⟨"", "", "", 0, 0, 0, 0, 0, "", "", 0, ""⟩

/-- Embeds `installmentDates.map((date, index) => …)`: a map that also
passes the 0-based position to the function. -/
def mapWithIndex {α β : Type} (f : Nat → α → β) : Nat → List α → List β
  | _, [] => []
  | i, x :: xs => f i x :: mapWithIndex f (i + 1) xs

/-- The controlled form state of the `NewAppointment` component. -/
structure FormData where
  patient_name : String
  cpf : String
  procedure : String
  total_value : String
  installments : String
  procedure_date : String
  payment_method : String
deriving DecidableEq

/-- Initial `useState` value of the form. -/
def initialFormData : FormData :=
  ⟨"", "", "", "", "1", "", "credit_card"⟩

/-- Stored string for the `total_value` field: two-decimal rendering of the
typed cents (`(cents / 100).toFixed(2)`). -/
def totalValueMask (value : String) : String :=
  let c := parseNatDigits (stripNonDigits value)
  toString (c / 100) ++ "." ++ (if c % 100 < 10 then "0" else "") ++ toString (c % 100)

/-- Embeds `handleInputChange`: the dynamic `{...prev, [name]: value}`
update is unrolled over the seven controlled fields; choosing `pix` or
`cash` as payment method forces `installments` back to `"1"`. -/
def handleInputChange (s : FormData) (nm val : String) : FormData :=
  if nm = "total_value" then
    { s with total_value := totalValueMask val }
  else if nm = "payment_method" then
    if val = "pix" ∨ val = "cash" then
      { s with payment_method := val, installments := "1" }
    else
      { s with payment_method := val }
  else if nm = "patient_name" then { s with patient_name := val }
  else if nm = "cpf" then { s with cpf := val }
  else if nm = "procedure" then { s with procedure := val }
  else if nm = "installments" then { s with installments := val }
  else if nm = "procedure_date" then { s with procedure_date := val }
  else s

/-- Change events the rendered form can actually emit: the payment-method
`select` offers exactly the three option values, and the `installments`
input carries `disabled` whenever the method is pix or cash, so it fires no
change events in those states. -/
def eventAllowed (s : FormData) (nm val : String) : Prop :=
  (nm = "payment_method" → val = "credit_card" ∨ val = "pix" ∨ val = "cash") ∧
  (nm = "installments" → s.payment_method ≠ "pix" ∧ s.payment_method ≠ "cash")

/-- Form states reachable from the initial state through allowed change
events. -/
inductive Reachable : FormData → Prop
  | init : Reachable initialFormData
  | step (s : FormData) (nm val : String) (hs : Reachable s)
      (h : eventAllowed s nm val) : Reachable (handleInputChange s nm val)

/-- Embeds the `appointments` construction of `handleSubmit` (lines
144–157): one row per computed installment date.  `totalValue` is the
numeric value `parseFloat(formData.total_value)` and `procedureDay` the
epoch day of `formData.procedure_date`. -/
def handleSubmitAppointments (fd : FormData) (totalValue : ℚ)
    (procedureDay : Int) (userId : String) : List Appointment :=
  let n := parseIntJS fd.installments
  let installmentDates := calculateInstallmentDates procedureDay n fd.payment_method
  mapWithIndex (fun index date =>
    { patient_name := fd.patient_name
      cpf := stripNonDigits fd.cpf
      procedure := fd.procedure
      total_value := totalValue
      installments := n
      installment_value := installmentValue totalValue n
      procedure_date := procedureDay
      next_payment_date := date
      status := if fd.payment_method = "pix" ∨ fd.payment_method = "cash"
        then "paid" else "pending"
      user_id := userId
      installment_number := index + 1
      payment_method := fd.payment_method }) 0 installmentDates

theorem adjustForWeekend_eq (d : Int) :
    adjustForWeekend d = if isWeekend d then adjustForWeekend (d + 1) else d := by
  conv_lhs => unfold adjustForWeekend

theorem isWeekend_iff (d : Int) :
    isWeekend d = true ↔ getDay d = 0 ∨ getDay d = 6 := by
  simp [isWeekend]

theorem isWeekend_eq_false_iff (d : Int) :
    isWeekend d = false ↔ getDay d ≠ 0 ∧ getDay d ≠ 6 := by
  simp [isWeekend]

theorem getDay_nonneg (d : Int) : 0 ≤ getDay d := by
  unfold getDay; omega

theorem getDay_lt (d : Int) : getDay d < 7 := by
  unfold getDay; omega

theorem getDay_succ (d : Int) : getDay (d + 1) = (getDay d + 1) % 7 := by
  unfold getDay; omega

theorem adjustForWeekend_of_weekend {d : Int} (h : isWeekend d = true) :
    adjustForWeekend d = adjustForWeekend (d + 1) := by
  rw [adjustForWeekend_eq, h]
  simp

theorem adjustForWeekend_of_not_weekend {d : Int} (h : isWeekend d = false) :
    adjustForWeekend d = d := by
  rw [adjustForWeekend_eq, h]
  simp

/-- Closed form of the weekend-adjustment loop. -/
theorem adjustForWeekend_closed (d : Int) :
    adjustForWeekend d = d + weekendShift d := by
  have h0 := getDay_nonneg d
  have h7 := getDay_lt d
  rcases (show getDay d = 6 ∨ getDay d = 0 ∨ (getDay d ≠ 0 ∧ getDay d ≠ 6) by omega)
    with h | h | h
  · -- Saturday: two steps, Saturday → Sunday → Monday
    have h1 : getDay (d + 1) = 0 := by rw [getDay_succ, h]; decide
    have h2 : getDay (d + 1 + 1) = 1 := by rw [getDay_succ, h1]; decide
    have hs : weekendShift d = 2 := by unfold weekendShift; rw [if_pos h]
    rw [adjustForWeekend_of_weekend ((isWeekend_iff d).2 (Or.inr h)),
      adjustForWeekend_of_weekend ((isWeekend_iff _).2 (Or.inl h1)),
      adjustForWeekend_of_not_weekend (by rw [isWeekend_eq_false_iff, h2]; omega), hs]
    omega
  · -- Sunday: one step to Monday
    have h1 : getDay (d + 1) = 1 := by rw [getDay_succ, h]; decide
    have hs : weekendShift d = 1 := by
      unfold weekendShift; rw [if_neg (by omega), if_pos h]
    rw [adjustForWeekend_of_weekend ((isWeekend_iff d).2 (Or.inl h)),
      adjustForWeekend_of_not_weekend (by rw [isWeekend_eq_false_iff, h1]; omega), hs]
  · -- weekday: unchanged
    have hs : weekendShift d = 0 := by unfold weekendShift; rw [if_neg h.2, if_neg h.1]
    rw [adjustForWeekend_of_not_weekend (by rw [isWeekend_eq_false_iff]; exact h), hs]
    omega

theorem weekendShift_nonneg (d : Int) : 0 ≤ weekendShift d := by
  unfold weekendShift
  split_ifs <;> omega

theorem weekendShift_le_two (d : Int) : weekendShift d ≤ 2 := by
  unfold weekendShift
  split_ifs <;> omega

theorem adjustForWeekend_ge (d : Int) : d ≤ adjustForWeekend d := by
  rw [adjustForWeekend_closed]
  have := weekendShift_nonneg d
  omega

theorem adjustForWeekend_le (d : Int) : adjustForWeekend d ≤ d + 2 := by
  rw [adjustForWeekend_closed]
  have := weekendShift_le_two d
  omega

theorem adjustForWeekend_not_weekend (d : Int) :
    isWeekend (adjustForWeekend d) = false := by
  rw [adjustForWeekend_closed, isWeekend_eq_false_iff]
  unfold weekendShift getDay
  split_ifs <;> omega

theorem adjustForWeekend_idem (d : Int) :
    adjustForWeekend (adjustForWeekend d) = adjustForWeekend d :=
  adjustForWeekend_of_not_weekend (adjustForWeekend_not_weekend d)

theorem adjustForWeekend_min {d e : Int} (hde : d ≤ e)
    (he : isWeekend e = false) : adjustForWeekend d ≤ e := by
  rw [adjustForWeekend_closed]
  rw [isWeekend_eq_false_iff] at he
  unfold weekendShift getDay at *
  split_ifs <;> omega

theorem cardDatesAux_length (d : Int) (k : Nat) :
    (cardDatesAux d k).length = k := by
  induction k generalizing d with
  | zero => rfl
  | succ k ih => simp [cardDatesAux, ih]

theorem nthDue_shift (d : Int) (i : Nat) :
    nthDue d (i + 1) = nthDue (adjustForWeekend (d + 30)) i := by
  induction i with
  | zero => rfl
  | succ i ih => rw [nthDue, ih, nthDue]

theorem cardDatesAux_getD (d : Int) (k i : Nat) (hi : i < k) :
    (cardDatesAux d k).getD i 0 = nthDue d (i + 1) := by
  induction k generalizing d i with
  | zero => omega
  | succ k ih =>
    cases i with
    | zero => rfl
    | succ i =>
      show (cardDatesAux (adjustForWeekend (d + 30)) k).getD i 0 = _
      rw [ih _ _ (by omega)]
      exact (nthDue_shift d (i + 1)).symm

theorem nthDue_lower_bound (d : Int) (i : Nat) :
    d + 30 * i ≤ nthDue d i := by
  induction i with
  | zero => simp [nthDue]
  | succ i ih =>
    have h := adjustForWeekend_ge (nthDue d i + 30)
    rw [nthDue]
    push_cast
    omega

theorem nthDue_not_weekend (d : Int) (i : Nat) (hi : 0 < i) :
    isWeekend (nthDue d i) = false := by
  cases i with
  | zero => omega
  | succ i => exact adjustForWeekend_not_weekend _

theorem cardDatesAux_mem (d : Int) (k : Nat) (x : Int)
    (hx : x ∈ cardDatesAux d k) : isWeekend x = false := by
  induction k generalizing d with
  | zero => simp [cardDatesAux] at hx
  | succ k ih =>
    simp only [cardDatesAux, List.mem_cons] at hx
    rcases hx with h | h
    · rw [h]; exact adjustForWeekend_not_weekend _
    · exact ih _ h

theorem calculateInstallmentDates_not_pix_cash {m : String}
    (hm : ¬(m = "pix" ∨ m = "cash")) (d n : Int) :
    calculateInstallmentDates d n m = cardDatesAux d n.toNat := by
  unfold calculateInstallmentDates
  rw [if_neg hm]

theorem mapWithIndex_length {α β : Type} (f : Nat → α → β) (j : Nat)
    (l : List α) : (mapWithIndex f j l).length = l.length := by
  induction l generalizing j with
  | nil => rfl
  | cons x xs ih => simp [mapWithIndex, ih]

theorem mapWithIndex_getD {α β : Type} (f : Nat → α → β) (j : Nat)
    (l : List α) (i : Nat) (dβ : β) (dα : α) (hi : i < l.length) :
    (mapWithIndex f j l).getD i dβ = f (j + i) (l.getD i dα) := by
  induction l generalizing j i with
  | nil => simp at hi
  | cons x xs ih =>
    cases i with
    | zero => rfl
    | succ i =>
      show (mapWithIndex f (j + 1) xs).getD i dβ = _
      rw [ih (j + 1) i (by simpa using hi)]
      congr 1
      omega

theorem handleInputChange_payment_method (s : FormData) (nm val : String)
    (h : nm ≠ "payment_method") :
    (handleInputChange s nm val).payment_method = s.payment_method := by
  unfold handleInputChange
  split_ifs <;> simp_all

theorem handleInputChange_installments (s : FormData) (nm val : String)
    (h1 : nm ≠ "installments") (h2 : nm ≠ "payment_method") :
    (handleInputChange s nm val).installments = s.installments := by
  unfold handleInputChange
  split_ifs <;> simp_all

/-- Invariant of the form state machine: whenever the payment method is
pix or cash, the `installments` field holds the string "1". -/
theorem reachable_pix_cash_installments {s : FormData} (hs : Reachable s)
    (hm : s.payment_method = "pix" ∨ s.payment_method = "cash") :
    s.installments = "1" := by
  induction hs with
  | init =>
    rcases hm with h | h <;> simp [initialFormData] at h
  | step s nm val hs h ih =>
    by_cases h2 : nm = "payment_method"
    · subst h2
      rcases h.1 rfl with hval | hval | hval <;> subst hval
      · have he : handleInputChange s "payment_method" "credit_card" =
            { s with payment_method := "credit_card" } := by
          simp [handleInputChange]
        rw [he] at hm
        rcases hm with hc | hc <;> simp at hc
      · have he : handleInputChange s "payment_method" "pix" =
            { s with payment_method := "pix", installments := "1" } := by
          simp [handleInputChange]
        rw [he]
      · have he : handleInputChange s "payment_method" "cash" =
            { s with payment_method := "cash", installments := "1" } := by
          simp [handleInputChange]
        rw [he]
    · rw [handleInputChange_payment_method s nm val h2] at hm
      by_cases h4 : nm = "installments"
      · exact absurd hm (by rcases (h.2 h4) with ⟨ha, hb⟩; rintro (hc | hc) <;> simp_all)
      · rw [handleInputChange_installments s nm val h4 h2]
        exact ih hm

/-- C1: for every credit-card schedule with n ≥ 1 installments, the first due
date is the weekend-adjusted procedure date plus 30 days and each later
installment's base date is the previous *adjusted* due date plus 30 days
(weekend shifts compound forward, never re-anchored to the procedure date);
consequently the last due date is at least proceduteDate + 30·n days. -/
theorem c1_card_dates_compound_forward (d : Int) (n : Nat) (hn : 1 ≤ n) :
    (calculateInstallmentDates d (n : Int) "credit_card").getD 0 0 =
      adjustForWeekend (d + 30) ∧
    (∀ i : Nat, i + 1 < n →
      (calculateInstallmentDates d (n : Int) "credit_card").getD (i + 1) 0 =
        adjustForWeekend
          ((calculateInstallmentDates d (n : Int) "credit_card").getD i 0 + 30)) ∧
    d + 30 * (n : Int) ≤
      (calculateInstallmentDates d (n : Int) "credit_card").getD (n - 1) 0 := by
  have hrw : calculateInstallmentDates d (n : Int) "credit_card" =
      cardDatesAux d n := by
    rw [calculateInstallmentDates_not_pix_cash (by decide) d (n : Int)]
    simp
  rw [hrw]
  refine ⟨?_, ?_, ?_⟩
  · rw [cardDatesAux_getD d n 0 (by omega)]
    rfl
  · intro i hi
    rw [cardDatesAux_getD d n (i + 1) (by omega), cardDatesAux_getD d n i (by omega)]
    rfl
  · rw [cardDatesAux_getD d n (n - 1) (by omega)]
    have hlb := nthDue_lower_bound d n
    have he : n - 1 + 1 = n := by omega
    rw [he]
    exact hlb

/-- Witness for C1 at the concrete Scenario-A style input: procedure date
2024-03-01 (epoch day 19783) and three installments. -/
theorem c1_card_dates_compound_forward_witness :
    (calculateInstallmentDates 19783 3 "credit_card").getD 1 0 =
      adjustForWeekend ((calculateInstallmentDates 19783 3 "credit_card").getD 0 0 + 30) ∧
    19783 + 30 * 3 ≤ (calculateInstallmentDates 19783 3 "credit_card").getD 2 0 :=
  ⟨(c1_card_dates_compound_forward 19783 3 (by norm_num)).2.1 0 (by norm_num),
   (c1_card_dates_compound_forward 19783 3 (by norm_num)).2.2⟩

/-- C2: every due date produced for a credit-card schedule falls on a
weekday — no installment due date is a Saturday or Sunday. -/
theorem c2_card_due_dates_weekday (d n x : Int)
    (hx : x ∈ calculateInstallmentDates d n "credit_card") :
    isWeekend x = false := by
  rw [calculateInstallmentDates_not_pix_cash (by decide) d n] at hx
  exact cardDatesAux_mem d n.toNat x hx

/-- Witness for C2: the single due date of a one-installment schedule
starting 2024-03-01 is 2024-04-01 (epoch day 19814), a Monday. -/
theorem c2_card_due_dates_weekday_witness : isWeekend 19814 = false :=
  c2_card_due_dates_weekday 19783 1 19814 (by
    rw [calculateInstallmentDates_not_pix_cash (by decide)]
    simp [cardDatesAux, adjustForWeekend_closed, weekendShift, getDay])

/-- C8: `adjustForWeekend` returns the first weekday greater than or equal
to its input (never a weekend, never earlier, and minimal among weekdays
at or after the input); on a weekday it is the identity, and it is
idempotent. -/
theorem c8_adjustForWeekend_first_weekday (d : Int) :
    isWeekend (adjustForWeekend d) = false ∧
    d ≤ adjustForWeekend d ∧
    (∀ e : Int, d ≤ e → isWeekend e = false → adjustForWeekend d ≤ e) ∧
    (isWeekend d = false → adjustForWeekend d = d) ∧
    adjustForWeekend (adjustForWeekend d) = adjustForWeekend d :=
  ⟨adjustForWeekend_not_weekend d, adjustForWeekend_ge d,
   fun _ hde he => adjustForWeekend_min hde he,
   fun h => adjustForWeekend_of_not_weekend h,
   adjustForWeekend_idem d⟩

/-- Witness for C8 at 2024-03-31 (epoch day 19813, a Sunday) and
2024-04-01 (epoch day 19814, a Monday). -/
theorem c8_adjustForWeekend_first_weekday_witness :
    adjustForWeekend 19813 ≤ 19814 ∧ adjustForWeekend 19814 = 19814 :=
  ⟨(c8_adjustForWeekend_first_weekday 19813).2.2.1 19814 (by norm_num) (by decide),
   (c8_adjustForWeekend_first_weekday 19814).2.2.2.1 (by decide)⟩

/-- C10: in a credit-card schedule, each due date is the weekend-adjusted
previous due date plus 30 days, so the gap between consecutive due dates
is exactly 30 days plus the weekend shift of the landing date (2 for a
Saturday, 1 for a Sunday, 0 otherwise), hence at least 30 and at most 32
days. -/
theorem c10_consecutive_gap_bounds (d n : Int) (i : Nat) (a b : Int)
    (hi : i + 1 < (calculateInstallmentDates d n "credit_card").length)
    (ha : a = (calculateInstallmentDates d n "credit_card").getD i 0)
    (hb : b = (calculateInstallmentDates d n "credit_card").getD (i + 1) 0) :
    b = adjustForWeekend (a + 30) ∧
    b - a = 30 + weekendShift (a + 30) ∧
    30 ≤ b - a ∧ b - a ≤ 32 := by
  rw [calculateInstallmentDates_not_pix_cash (by decide) d n] at hi ha hb
  rw [cardDatesAux_length] at hi
  rw [cardDatesAux_getD d _ i (by omega)] at ha
  rw [cardDatesAux_getD d _ (i + 1) (by omega)] at hb
  subst ha hb
  have hstep : nthDue d (i + 1 + 1) = adjustForWeekend (nthDue d (i + 1) + 30) := rfl
  have hc := adjustForWeekend_closed (nthDue d (i + 1) + 30)
  have h1 := weekendShift_nonneg (nthDue d (i + 1) + 30)
  have h2 := weekendShift_le_two (nthDue d (i + 1) + 30)
  refine ⟨hstep, by omega, by omega, by omega⟩

/-- Witness for C10: second gap of the schedule starting 2024-03-01 with
two installments runs from 2024-04-01 (19814) to 2024-05-01 (19844), a gap
of exactly 30 days. -/
theorem c10_consecutive_gap_bounds_witness :
    (19844 : Int) = adjustForWeekend (19814 + 30) ∧
    (19844 : Int) - 19814 = 30 + weekendShift (19814 + 30) ∧
    (30 : Int) ≤ 19844 - 19814 ∧ (19844 : Int) - 19814 ≤ 32 :=
  c10_consecutive_gap_bounds 19783 2 0 19814 19844
    (by rw [calculateInstallmentDates_not_pix_cash (by decide), cardDatesAux_length]
        decide)
    (by rw [calculateInstallmentDates_not_pix_cash (by decide)]
        simp [cardDatesAux, adjustForWeekend_closed, weekendShift, getDay])
    (by rw [calculateInstallmentDates_not_pix_cash (by decide)]
        simp [cardDatesAux, adjustForWeekend_closed, weekendShift, getDay])

/-- C3: a credit-card submission with installmentCount n ≥ 1 inserts exactly
n rows, and the row at 0-based position i carries the 1-based
installment_number i + 1, so the sequence numbers are unique and
contiguous. -/
theorem c3_card_plan_count_and_numbering (fd : FormData) (total : ℚ)
    (procDay : Int) (uid : String) (n : Nat)
    (hm : fd.payment_method = "credit_card") (_hn : 1 ≤ n)
    (hcount : parseIntJS fd.installments = (n : Int)) :
    (handleSubmitAppointments fd total procDay uid).length = n ∧
    ∀ i : Nat, i < n →
      ((handleSubmitAppointments fd total procDay uid).getD i
        defaultAppointment).installment_number = i + 1 := by
  have hdates : calculateInstallmentDates procDay (parseIntJS fd.installments)
      fd.payment_method = cardDatesAux procDay n := by
    rw [hm, calculateInstallmentDates_not_pix_cash (by decide), hcount]
    simp
  have hl : (cardDatesAux procDay n).length = n := cardDatesAux_length procDay n
  constructor
  · simp only [handleSubmitAppointments, hdates]
    rw [mapWithIndex_length, hl]
  · intro i hi
    simp only [handleSubmitAppointments, hdates]
    rw [mapWithIndex_getD _ 0 _ i defaultAppointment 0 (by omega)]
    simp

/-- Witness for C3: two installments on card give two rows numbered 1, 2. -/
theorem c3_card_plan_count_and_numbering_witness :
    (handleSubmitAppointments ⟨"", "", "", "", "2", "", "credit_card"⟩
      100 19783 "").length = 2 ∧
    ((handleSubmitAppointments ⟨"", "", "", "", "2", "", "credit_card"⟩
      100 19783 "").getD 1 defaultAppointment).installment_number = 2 :=
  ⟨(c3_card_plan_count_and_numbering ⟨"", "", "", "", "2", "", "credit_card"⟩
      100 19783 "" 2 rfl (by norm_num) (by decide)).1,
   (c3_card_plan_count_and_numbering ⟨"", "", "", "", "2", "", "credit_card"⟩
      100 19783 "" 2 rfl (by norm_num) (by decide)).2 1 (by norm_num)⟩

/-- C4: from any reachable form state whose payment method is pix or cash —
whatever installment count was requested along the way, the form forces it
back to "1" — the submission inserts exactly one row, with status "paid",
amount equal to the total, and due date equal to the procedure date with no
weekend adjustment applied (the equality holds even when the procedure date
is a Saturday or Sunday). -/
theorem c4_pix_cash_single_immediate (s : FormData) (hs : Reachable s)
    (hm : s.payment_method = "pix" ∨ s.payment_method = "cash")
    (total : ℚ) (procDay : Int) (uid : String) :
    (handleSubmitAppointments s total procDay uid).length = 1 ∧
    ((handleSubmitAppointments s total procDay uid).getD 0
      defaultAppointment).status = "paid" ∧
    ((handleSubmitAppointments s total procDay uid).getD 0
      defaultAppointment).installment_value = total ∧
    ((handleSubmitAppointments s total procDay uid).getD 0
      defaultAppointment).next_payment_date = procDay := by
  have hinst : s.installments = "1" := reachable_pix_cash_installments hs hm
  have hn : parseIntJS s.installments = 1 := by rw [hinst]; decide
  have hdates : calculateInstallmentDates procDay 1 s.payment_method = [procDay] := by
    unfold calculateInstallmentDates
    rw [if_pos hm]
  refine ⟨?_, ?_, ?_, ?_⟩ <;>
    simp only [handleSubmitAppointments, hn, hdates, mapWithIndex] <;>
    simp [List.getD_cons_zero, installmentValue, if_pos hm]

/-- Witness for C4: selecting pix and submitting on 2024-03-30 (epoch day
19812, a Saturday) gives one paid row of the full amount due the same day. -/
theorem c4_pix_cash_single_immediate_witness :
    (handleSubmitAppointments
      (handleInputChange initialFormData "payment_method" "pix")
      250 19812 "").length = 1 ∧
    ((handleSubmitAppointments
      (handleInputChange initialFormData "payment_method" "pix")
      250 19812 "").getD 0 defaultAppointment).status = "paid" ∧
    ((handleSubmitAppointments
      (handleInputChange initialFormData "payment_method" "pix")
      250 19812 "").getD 0 defaultAppointment).installment_value = 250 ∧
    ((handleSubmitAppointments
      (handleInputChange initialFormData "payment_method" "pix")
      250 19812 "").getD 0 defaultAppointment).next_payment_date = 19812 :=
  c4_pix_cash_single_immediate
    (handleInputChange initialFormData "payment_method" "pix")
    (Reachable.step initialFormData "payment_method" "pix" Reachable.init
      ⟨fun _ => Or.inr (Or.inl rfl), fun hcon => absurd hcon (by decide)⟩)
    (Or.inl (by decide)) 250 19812 ""

/-- C5 as stated is false of the code: at installmentCount = 0 the scheduler
does not fail with any error — it is a total function that silently returns
an empty date list, and `handleSubmit` would build an empty row set. -/
theorem c5_counterexample_no_invalid_input_error :
    calculateInstallmentDates 19783 0 "credit_card" = [] ∧
    handleSubmitAppointments ⟨"", "", "", "", "0", "", "credit_card"⟩
      100 19783 "" = [] := by
  exact ⟨rfl, rfl⟩

/-- C5 amended: the scheduler performs no input validation.  Any payment
method other than "pix"/"cash" is treated exactly as credit_card, and a
non-positive installment count silently yields an empty plan instead of an
InvalidInput failure. -/
theorem c5_amended_no_validation (d n : Int) (m : String)
    (hm : ¬(m = "pix" ∨ m = "cash")) :
    calculateInstallmentDates d n m = calculateInstallmentDates d n "credit_card" ∧
    (n ≤ 0 → calculateInstallmentDates d n m = []) := by
  constructor
  · rw [calculateInstallmentDates_not_pix_cash hm,
      calculateInstallmentDates_not_pix_cash (by decide)]
  · intro hn
    rw [calculateInstallmentDates_not_pix_cash hm]
    have hz : n.toNat = 0 := by omega
    rw [hz]
    rfl

/-- Witness for the amended C5: a negative count and an unrecognized
payment method produce an empty plan, silently. -/
theorem c5_amended_no_validation_witness :
    calculateInstallmentDates 19783 (-2) "boleto" = [] :=
  (c5_amended_no_validation 19783 (-2) "boleto" (by decide)).2 (by norm_num)

/-- C6 as stated is false of the code: for totalAmount 100.00 in 3 card
installments the stored per-installment amount is the plain quotient
100/3 = 33.333…, not 33.33, and the stored amounts sum to exactly 100.00,
not 99.99. -/
theorem c6_counterexample_stored_amount_unrounded :
    installmentValue 100 3 ≠ 3333 / 100 ∧
    (3 : ℚ) * installmentValue 100 3 ≠ 9999 / 100 ∧
    (3 : ℚ) * installmentValue 100 3 = 100 := by
  refine ⟨?_, ?_, ?_⟩ <;> norm_num [installmentValue]

/-- C6 amended: the stored per-installment amount is exactly
totalAmount / installmentCount (100/3, with no cent-level remainder
redistribution); only its two-decimal display rendering is 33.33, and those
rounded display amounts sum to 99.99 while the stored amounts sum to
100.00. -/
theorem c6_amended_display_rounding_gap :
    installmentValue 100 3 = 100 / 3 ∧
    toFixed2 (installmentValue 100 3) = 3333 / 100 ∧
    (3 : ℚ) * toFixed2 (installmentValue 100 3) = 9999 / 100 ∧
    (3 : ℚ) * installmentValue 100 3 = 100 := by
  have hr : round ((100 / 3 : ℚ) * 100) = 3333 := by
    rw [round_eq]
    norm_num
  refine ⟨by norm_num [installmentValue], ?_, ?_, by norm_num [installmentValue]⟩
  · rw [show installmentValue 100 3 = 100 / 3 by norm_num [installmentValue],
      toFixed2, hr]
    norm_num
  · rw [show installmentValue 100 3 = 100 / 3 by norm_num [installmentValue],
      toFixed2, hr]
    norm_num

/-- C7, Scenario A: procedure date 2024-03-01 (a Friday), 300.00 in 3 card
installments → three rows of 100.00 each; 2024-03-01 + 30 days is
2024-03-31, a Sunday (day-of-week 0), which shifts forward to Monday
2024-04-01, the first due date. -/
theorem c7_scenario_a :
    daysFromCivil 2024 3 1 + 30 = daysFromCivil 2024 3 31 ∧
    getDay (daysFromCivil 2024 3 31) = 0 ∧
    adjustForWeekend (daysFromCivil 2024 3 31) = daysFromCivil 2024 4 1 ∧
    (calculateInstallmentDates (daysFromCivil 2024 3 1) 3 "credit_card").getD 0 0 =
      daysFromCivil 2024 4 1 ∧
    (handleSubmitAppointments ⟨"", "", "", "", "3", "", "credit_card"⟩
      300 (daysFromCivil 2024 3 1) "").map (fun a => a.installment_value) =
      [100, 100, 100] := by
  have hd : daysFromCivil 2024 3 1 = 19783 := by decide
  have hd31 : daysFromCivil 2024 3 31 = 19813 := by decide
  have hd41 : daysFromCivil 2024 4 1 = 19814 := by decide
  have h3 : parseIntJS "3" = 3 := by decide
  have hdates : calculateInstallmentDates 19783 3 "credit_card" =
      [19814, 19844, 19874] := by
    rw [calculateInstallmentDates_not_pix_cash (by decide)]
    simp [cardDatesAux, adjustForWeekend_closed, weekendShift, getDay]
  refine ⟨by rw [hd, hd31]; decide, by rw [hd31]; decide, ?_, ?_, ?_⟩
  · rw [hd31, hd41, adjustForWeekend_closed]
    decide
  · rw [hd, hd41, hdates]
    rfl
  · simp only [handleSubmitAppointments, h3, hd, hdates, mapWithIndex]
    norm_num [installmentValue]

/-- C9: converting a whole number of typed cents to the stored two-decimal
amount (divide by 100, fix to two decimals) is exact: multiplying the
stored amount back by 100 recovers the cents, both for an abstract cent
count and for the full input-mask pipeline on any raw input string. -/
theorem c9_cents_round_trip (c : Nat) (raw : String) :
    toFixed2 ((c : ℚ) / 100) * 100 = (c : ℚ) ∧
    maskedTotalAmount raw * 100 = (parseNatDigits (stripNonDigits raw) : ℚ) := by
  have key : ∀ m : Nat, toFixed2 ((m : ℚ) / 100) * 100 = (m : ℚ) := by
    intro m
    unfold toFixed2
    have hx : (m : ℚ) / 100 * 100 = (m : ℚ) :=
      div_mul_cancel₀ _ (by norm_num : (100 : ℚ) ≠ 0)
    rw [hx, round_natCast]
    push_cast
    rw [hx]
  exact ⟨key c, key (parseNatDigits (stripNonDigits raw))⟩

end MHLS
